import Mathlib

/-!
Shallow embedding of the markdown <-> block converter of
src/markdown_converter.py (class MarkdownConverter), together with proofs
about its parsing and serialization behaviour.

Python strings are modelled as lists of characters (PyStr).  The helper
functions pyStrip, splitNl, joinNl, pyStartsWith, firstIsDigit, hasDotSpace
and afterDotSpace model, over that representation, the Python operations
str.strip(), str.split("\n"), "\n".join(...), str.startswith(...),
line[0].isdigit(), (". " in line) and line.split(". ", 1)[1] that the
source uses.
-/

/-- Python strings modelled as lists of characters. -/
abbrev PyStr := List Char

/-- The ASCII whitespace characters stripped by Python str.strip(). -/
def pyIsSpace (c : Char) : Bool :=
  c == ' ' || c == '\t' || c == '\n' || c == '\r' || c == '\x0b' || c == '\x0c'

/-- Left part of Python str.strip(): drop leading whitespace. -/
def stripLeft (l : PyStr) : PyStr := l.dropWhile pyIsSpace

/-- Right part of Python str.strip(): drop trailing whitespace. -/
def stripRight (l : PyStr) : PyStr := (l.reverse.dropWhile pyIsSpace).reverse

/-- Python str.strip(): drop leading and trailing whitespace. -/
def pyStrip (l : PyStr) : PyStr := stripRight (stripLeft l)

/-- Python str.split("\n"): split at every newline, keeping empty pieces. -/
def splitNl : PyStr → List PyStr
  | [] => [[]]
  | c :: rest =>
    if c == '\n' then [] :: splitNl rest
    else (c :: (splitNl rest).headI) :: (splitNl rest).tail

/-- Python "\n".join(...): interleave a newline between the pieces. -/
def joinNl : List PyStr → PyStr
  | [] => []
  | [l] => l
  | l :: l2 :: ls => l ++ '\n' :: joinNl (l2 :: ls)

/-- Python str.startswith(p). -/
def pyStartsWith (p l : PyStr) : Bool := List.isPrefixOf p l

/-- Python str.isdigit() restricted to its ASCII digit range,
applied to the first character of a line (line[0].isdigit(); false on the
empty line, where Python would short-circuit before indexing). -/
def firstIsDigit : PyStr → Bool
  | [] => false
  | c :: _ => '0' ≤ c && c ≤ '9'

/-- Python (". " in line): the line contains the two-character
substring dot-space. -/
def hasDotSpace : PyStr → Bool
  | c1 :: c2 :: rest => (c1 == '.' && c2 == ' ') || hasDotSpace (c2 :: rest)
  | _ => false

/-- Python line.split(". ", 1)[1]: everything after the first occurrence of
the dot-space substring (empty when there is none; the source only calls it
under the hasDotSpace guard). -/
def afterDotSpace : PyStr → PyStr
  | c1 :: c2 :: rest =>
    if c1 == '.' && c2 == ' ' then rest else afterDotSpace (c2 :: rest)
  | _ => []

/-- The block dictionaries produced and consumed by MarkdownConverter.
Each variant carries its rich_text list (the list of text-run contents) and,
for code, the language string; `other` stands for a block dictionary whose
type tag is none of the handled ones. -/
inductive Block where
  | paragraph (rich : List PyStr)
  | heading_1 (rich : List PyStr)
  | heading_2 (rich : List PyStr)
  | heading_3 (rich : List PyStr)
  | bulleted_list_item (rich : List PyStr)
  | numbered_list_item (rich : List PyStr)
  | code (rich : List PyStr) (language : PyStr)
  | to_do (checked : Bool) (rich : List PyStr)
  | quote (rich : List PyStr)
  | other (tag : PyStr)
  deriving DecidableEq, Repr

/-- MarkdownConverter._extract_text_content: concatenation of the text-run
contents of a rich_text list. -/
def extractTextContent (rich : List PyStr) : PyStr := rich.flatten

/-- The body loop of MarkdownConverter.parse_markdown_to_blocks: classify
each line in order (heading_2, heading_3, bulleted item, numbered item,
code fence, non-blank paragraph, blank line).  The fuel argument makes the
recursion structural; it only needs to bound the number of remaining lines
(the loop consumes at least one line per iteration). -/
def parseBodyAux : Nat → List PyStr → List Block
  | 0, _ => []
  | _ + 1, [] => []
  | fuel + 1, line :: rest =>
    if pyStartsWith ['#', '#', ' '] line then
      Block.heading_2 [pyStrip (line.drop 3)] :: parseBodyAux fuel rest
    else if pyStartsWith ['#', '#', '#', ' '] line then
      Block.heading_3 [pyStrip (line.drop 4)] :: parseBodyAux fuel rest
    else if pyStartsWith ['-', ' '] line then
      Block.bulleted_list_item [pyStrip (line.drop 2)] :: parseBodyAux fuel rest
    else if !(pyStrip line).isEmpty && firstIsDigit line && hasDotSpace line then
      Block.numbered_list_item [pyStrip (afterDotSpace line)] :: parseBodyAux fuel rest
    else if pyStartsWith ['`', '`', '`'] line then
      let language := pyStrip (line.drop 3)
      let codeLines := rest.takeWhile (fun l => !pyStartsWith ['`', '`', '`'] l)
      Block.code [joinNl codeLines]
          (if language.isEmpty then
            ['p', 'l', 'a', 'i', 'n', ' ', 't', 'e', 'x', 't']
          else language) ::
        parseBodyAux fuel ((rest.dropWhile (fun l => !pyStartsWith ['`', '`', '`'] l)).drop 1)
    else if !(pyStrip line).isEmpty then
      Block.paragraph [pyStrip line] :: parseBodyAux fuel rest
    else
      parseBodyAux fuel rest

/-- The body loop, with fuel instantiated to the number of lines. -/
def parseBody (lines : List PyStr) : List Block := parseBodyAux lines.length lines

/-- The title scan of MarkdownConverter.parse_markdown_to_blocks: find the
first line starting with hash-space; its trimmed remainder is the title and
the body starts on the following line. -/
def titleScan : List PyStr → Option (PyStr × List PyStr)
  | [] => none
  | line :: rest =>
    if pyStartsWith ['#', ' '] line then some (pyStrip (line.drop 2), rest)
    else titleScan rest

/-- parse_markdown_to_blocks after the input has been stripped and split
into lines: title scan, then the body loop. -/
def parseLines (lines : List PyStr) : List Block × PyStr :=
  match titleScan lines with
  | some (t, rest) => (parseBody rest, t)
  | none => (parseBody lines, [])

/-- MarkdownConverter.parse_markdown_to_blocks: strip the input, split it at
newlines, extract the title and classify the body lines.  Returns the pair
(blocks, title), in the order of the Python return statement. -/
def parse_markdown_to_blocks (md : PyStr) : List Block × PyStr :=
  parseLines (splitNl (pyStrip md))

/-- The md_lines entries contributed by one block inside
MarkdownConverter.convert_blocks_to_markdown (a trailing [] entry is the
blank line appended after the block). -/
def serializeBlock : Block → List PyStr
  | .paragraph rich => [extractTextContent rich, []]
  | .heading_1 rich => [['#', ' '] ++ extractTextContent rich, []]
  | .heading_2 rich => [['#', '#', ' '] ++ extractTextContent rich, []]
  | .heading_3 rich => [['#', '#', '#', ' '] ++ extractTextContent rich, []]
  | .bulleted_list_item rich => [['-', ' '] ++ extractTextContent rich]
  | .numbered_list_item rich => [['1', '.', ' '] ++ extractTextContent rich]
  | .code rich language =>
      [['`', '`', '`'] ++ language, extractTextContent rich, ['`', '`', '`'], []]
  | .to_do checked rich =>
      [['-', ' '] ++ (if checked then ['[', 'x', ']'] else ['[', ' ', ']']) ++
        ' ' :: extractTextContent rich]
  | .quote rich => [['>', ' '] ++ extractTextContent rich, []]
  | .other _ => []

/-- MarkdownConverter.convert_blocks_to_markdown: an optional title line
followed by a blank line (emitted only when the title argument is neither
None nor empty, matching the Python truthiness test), then the per-block
lines, all joined with newlines. -/
def convert_blocks_to_markdown (blocks : List Block) (title : Option PyStr) : PyStr :=
  let titleLines : List PyStr :=
    match title with
    | some t => if t.isEmpty then [] else [['#', ' '] ++ t, []]
    | none => []
  joinNl (titleLines ++ blocks.flatMap serializeBlock)

/-- The type tag string of a block dictionary (block.get("type") in the
source). -/
def tagOf : Block → PyStr
  | .paragraph _ => "paragraph".toList
  | .heading_1 _ => "heading_1".toList
  | .heading_2 _ => "heading_2".toList
  | .heading_3 _ => "heading_3".toList
  | .bulleted_list_item _ => "bulleted_list_item".toList
  | .numbered_list_item _ => "numbered_list_item".toList
  | .code _ _ => "code".toList
  | .to_do _ _ => "to_do".toList
  | .quote _ => "quote".toList
  | .other tag => tag

/-- The rich_text payload of a block dictionary. -/
def richOf : Block → List PyStr
  | .paragraph rich => rich
  | .heading_1 rich => rich
  | .heading_2 rich => rich
  | .heading_3 rich => rich
  | .bulleted_list_item rich => rich
  | .numbered_list_item rich => rich
  | .code rich _ => rich
  | .to_do _ rich => rich
  | .quote rich => rich
  | .other _ => []

/-- The observation the round-trip claim compares blocks by: the variant
type tag together with the joined text content. -/
def typeText (b : Block) : PyStr × PyStr := (tagOf b, extractTextContent (richOf b))

/-- The six block variants the parser can produce. -/
def isParserVariant : Block → Bool
  | .heading_2 _ => true
  | .heading_3 _ => true
  | .bulleted_list_item _ => true
  | .numbered_list_item _ => true
  | .code _ _ => true
  | .paragraph _ => true
  | _ => false

/-- The two list-item variants, which the serializer emits without a
trailing blank line. -/
def isListItem : Block → Bool
  | .bulleted_list_item _ => true
  | .numbered_list_item _ => true
  | _ => false

/-- The to_do variant. -/
def isToDo : Block → Bool
  | .to_do _ _ => true
  | _ => false

/-- A text line already in the parser's normal form: trimmed, nonempty and
without newlines. -/
def lineOk (t : PyStr) : Bool := decide (pyStrip t = t ∧ t ≠ [] ∧ '\n' ∉ t)

/-- A paragraph line that the parser will not mistake for another variant:
it starts with none of the markdown markers and does not trigger the
numbered-list heuristic. -/
def plainLine (t : PyStr) : Bool :=
  !pyStartsWith ['#', ' '] t && !pyStartsWith ['#', '#', ' '] t &&
    !pyStartsWith ['#', '#', '#', ' '] t && !pyStartsWith ['-', ' '] t &&
    !pyStartsWith ['`', '`', '`'] t && !(firstIsDigit t && hasDotSpace t)

/-- A code-text line that survives the round trip: it neither closes the
fence early nor gets captured by the title scan. -/
def codeLineOk (l : PyStr) : Bool :=
  !pyStartsWith ['`', '`', '`'] l && !pyStartsWith ['#', ' '] l

/-- The canonical blocks of the round-trip claim: the six parser variants,
each carrying exactly one text run, with text in the parser's normal
form. -/
def canonicalBlock : Block → Bool
  | .heading_2 [t] => lineOk t
  | .heading_3 [t] => lineOk t
  | .bulleted_list_item [t] => lineOk t
  | .numbered_list_item [t] => lineOk t
  | .paragraph [t] => lineOk t && plainLine t
  | .code [t] language => decide ('\n' ∉ language) && (splitNl t).all codeLineOk
  | _ => false

/-- A canonical title: trimmed and without newlines (it may be empty, in
which case the serializer emits no title line). -/
def canonicalTitle (t : PyStr) : Bool := decide (pyStrip t = t ∧ '\n' ∉ t)

/-- The lines a block contributes to the serialized document, with a code
block's text broken at its newlines (serializeBlock keeps that text as a
single md_lines entry; joining with newlines makes the two views agree). -/
def blockLines : Block → List PyStr
  | .code rich language =>
      (['`', '`', '`'] ++ language) ::
        (splitNl (extractTextContent rich) ++ [['`', '`', '`'], ([] : PyStr)])
  | b => serializeBlock b

/-- A line whose first character exists and is not whitespace (so the left
strip of the whole document does not touch it). -/
def lineStartsSolid (m : PyStr) : Bool :=
  match m with
  | [] => false
  | c :: _ => !pyIsSpace c

/-- A line whose last character exists and is not whitespace (so the right
strip of the whole document does not touch it). -/
def lineEndsSolid (m : PyStr) : Bool :=
  match m.reverse with
  | [] => false
  | c :: _ => !pyIsSpace c

/-- What parsing the serialization of a canonical block gives back: the
same block, except that a code block's language comes back trimmed, with
the empty language replaced by the literal "plain text". -/
def reparse : Block → Block
  | .code rich language =>
      .code rich
        (if (pyStrip language).isEmpty then "plain text".toList else pyStrip language)
  | b => b


/-- The result of the body loop does not depend on the fuel, as long as the
fuel bounds the number of lines. -/
theorem parseBodyAux_fuel {f1 f2 : Nat} {lines : List PyStr}
    (h1 : lines.length ≤ f1) (h2 : lines.length ≤ f2) :
    parseBodyAux f1 lines = parseBodyAux f2 lines := by
  induction f1 generalizing f2 lines with
  | zero =>
    have : lines = [] := List.eq_nil_of_length_eq_zero (Nat.le_zero.mp h1)
    subst this
    cases f2 <;> rfl
  | succ f1 ih =>
    cases lines with
    | nil => cases f2 <;> rfl
    | cons line rest =>
      cases f2 with
      | zero => exact absurd h2 (by simp)
      | succ f2 =>
        have hr : rest.length ≤ f1 := by simpa using Nat.lt_succ_iff.mp h1
        have hr2 : rest.length ≤ f2 := by simpa using Nat.lt_succ_iff.mp h2
        have hdrop : ((rest.dropWhile (fun l => !pyStartsWith ['`', '`', '`'] l)).drop 1).length
            ≤ rest.length := by
          have hs := (List.dropWhile_sublist
            (p := fun l => !pyStartsWith ['`', '`', '`'] l) (l := rest)).length_le
          simp only [List.length_drop]
          omega
        simp only [parseBodyAux]
        rw [ih hr hr2, ih (Nat.le_trans hdrop hr) (Nat.le_trans hdrop hr2)]

/-- Unfolding equation of the body loop on the empty line list. -/
theorem parseBody_nil : parseBody [] = [] := rfl

/-- Unfolding equation of the body loop on a nonempty line list. -/
theorem parseBody_cons (line : PyStr) (rest : List PyStr) :
    parseBody (line :: rest) =
      if pyStartsWith ['#', '#', ' '] line then
        Block.heading_2 [pyStrip (line.drop 3)] :: parseBody rest
      else if pyStartsWith ['#', '#', '#', ' '] line then
        Block.heading_3 [pyStrip (line.drop 4)] :: parseBody rest
      else if pyStartsWith ['-', ' '] line then
        Block.bulleted_list_item [pyStrip (line.drop 2)] :: parseBody rest
      else if !(pyStrip line).isEmpty && firstIsDigit line && hasDotSpace line then
        Block.numbered_list_item [pyStrip (afterDotSpace line)] :: parseBody rest
      else if pyStartsWith ['`', '`', '`'] line then
        Block.code [joinNl (rest.takeWhile (fun l => !pyStartsWith ['`', '`', '`'] l))]
            (if (pyStrip (line.drop 3)).isEmpty then
              ['p', 'l', 'a', 'i', 'n', ' ', 't', 'e', 'x', 't']
            else pyStrip (line.drop 3)) ::
          parseBody ((rest.dropWhile (fun l => !pyStartsWith ['`', '`', '`'] l)).drop 1)
      else if !(pyStrip line).isEmpty then
        Block.paragraph [pyStrip line] :: parseBody rest
      else
        parseBody rest := by
  show parseBodyAux (rest.length + 1) (line :: rest) = _
  have hdrop : ((rest.dropWhile (fun l => !pyStartsWith ['`', '`', '`'] l)).drop 1).length
      ≤ rest.length := by
    have hs := (List.dropWhile_sublist
      (p := fun l => !pyStartsWith ['`', '`', '`'] l) (l := rest)).length_le
    simp only [List.length_drop]
    omega
  simp only [parseBodyAux, parseBody]
  rw [parseBodyAux_fuel hdrop (Nat.le_refl _)]

/-- pyStartsWith restated as list prefixhood. -/
theorem pyStartsWith_iff {p l : PyStr} : pyStartsWith p l = true ↔ p <+: l := by
  simp [pyStartsWith]

/-- A string starts with any of its prefixes. -/
theorem pyStartsWith_append (p t : PyStr) : pyStartsWith p (p ++ t) = true :=
  pyStartsWith_iff.mpr ⟨t, rfl⟩

/-- A string is stripped to nothing exactly when it is all whitespace. -/
theorem pyStrip_eq_nil_iff (l : PyStr) :
    pyStrip l = [] ↔ ∀ c ∈ l, pyIsSpace c = true := by
  simp only [pyStrip, stripRight, stripLeft, List.reverse_eq_nil_iff,
    List.dropWhile_eq_nil_iff, List.mem_reverse]
  constructor
  · intro h c hc
    rw [← List.takeWhile_append_dropWhile (p := pyIsSpace) (l := l)] at hc
    rcases List.mem_append.mp hc with h1 | h2
    · exact List.mem_takeWhile_imp h1
    · exact h c h2
  · intro h c hc
    exact h c ((List.dropWhile_sublist _).subset hc)

/-- An all-whitespace line does not start with a marker whose first
character is not whitespace. -/
theorem pyStartsWith_false_of_blank {l p : PyStr} (c0 : Char)
    (hws : ∀ c ∈ l, pyIsSpace c = true) (hc : pyIsSpace c0 = false) :
    pyStartsWith (c0 :: p) l = false := by
  cases hpw : pyStartsWith (c0 :: p) l with
  | false => rfl
  | true =>
    obtain ⟨t, ht⟩ := pyStartsWith_iff.mp hpw
    have hmem : c0 ∈ l := by
      rw [← ht]
      exact List.mem_append_left _ (List.mem_cons_self c0 p)
    rw [hws c0 hmem] at hc
    exact absurd hc (by simp)

/-- Claim C9: the serializer handles blocks tagged heading_1 (a variant
absent from the specified Block model), emitting a hash-space line with the
joined text, followed by a trailing blank line, rather than skipping them
like an unknown variant. -/
theorem C9_heading_1_emitted (rich : List PyStr) :
    serializeBlock (Block.heading_1 rich) = [['#', ' '] ++ extractTextContent rich, []] ∧
    convert_blocks_to_markdown [Block.heading_1 rich] none =
      ['#', ' '] ++ extractTextContent rich ++ ['\n'] := by
  refine ⟨rfl, ?_⟩
  simp [convert_blocks_to_markdown, serializeBlock, joinNl]

/-- Claim C7: the serializer is total, and a block whose type tag is not
among the handled variants contributes no output at all: deleting it from
the block list leaves the serialized document unchanged, and the remaining
blocks are still serialized in order. -/
theorem C7_unknown_variant_skipped (pre post : List Block) (tag : PyStr)
    (title : Option PyStr) :
    convert_blocks_to_markdown (pre ++ Block.other tag :: post) title =
      convert_blocks_to_markdown (pre ++ post) title := by
  simp [convert_blocks_to_markdown, serializeBlock]

/-- Counterexample to claim C2 as stated: a to_do block is not followed by
a blank line (the serialized single to_do document has no trailing newline),
and no blank line separates a bulleted group from a following paragraph. -/
theorem C2_counterexample :
    convert_blocks_to_markdown [Block.to_do false ["x".toList]] none = "- [ ] x".toList ∧
    convert_blocks_to_markdown [Block.to_do false ["x".toList]] none ≠ "- [ ] x\n".toList ∧
    convert_blocks_to_markdown
        [Block.bulleted_list_item ["a".toList], Block.bulleted_list_item ["b".toList],
          Block.paragraph ["c".toList]] none ≠ "- a\n- b\n\nc\n".toList := by
  decide

/-- Claim C2 (amended): the serializer emits a trailing blank line after
every emitted block except bulleted_list_item, numbered_list_item and to_do
items; two consecutive bulleted items have no blank line between them, and
no blank line separates such a list group from a following paragraph. -/
theorem C2_trailing_blank_policy (b : Block) (hb : serializeBlock b ≠ []) :
    ((serializeBlock b).getLast? = some ([] : PyStr) ↔
      isListItem b = false ∧ isToDo b = false) ∧
    convert_blocks_to_markdown
        [Block.bulleted_list_item ["a".toList], Block.bulleted_list_item ["b".toList]]
        none = "- a\n- b".toList ∧
    convert_blocks_to_markdown
        [Block.bulleted_list_item ["a".toList], Block.bulleted_list_item ["b".toList],
          Block.paragraph ["c".toList]] none = "- a\n- b\nc\n".toList := by
  refine ⟨?_, by decide, by decide⟩
  cases b <;> simp_all [serializeBlock, isListItem, isToDo]

/-- Witness for C2_trailing_blank_policy, at a concrete to_do block. -/
theorem C2_trailing_blank_policy_witness :
    ((serializeBlock (Block.to_do false ["x".toList])).getLast? = some ([] : PyStr) ↔
      isListItem (Block.to_do false ["x".toList]) = false ∧
        isToDo (Block.to_do false ["x".toList]) = false) ∧
    convert_blocks_to_markdown
        [Block.bulleted_list_item ["a".toList], Block.bulleted_list_item ["b".toList]]
        none = "- a\n- b".toList ∧
    convert_blocks_to_markdown
        [Block.bulleted_list_item ["a".toList], Block.bulleted_list_item ["b".toList],
          Block.paragraph ["c".toList]] none = "- a\n- b\nc\n".toList :=
  C2_trailing_blank_policy (Block.to_do false ["x".toList]) (by decide)

/-- Claim C6: the parser is total; blank lines (empty after trimming) emit
no block, the empty input parses to no blocks and an empty title, and so
does an input of three newlines. -/
theorem C6_parser_total (line : PyStr) (rest : List PyStr)
    (h : pyStrip line = []) :
    parse_markdown_to_blocks [] = ([], []) ∧
    parse_markdown_to_blocks "\n\n\n".toList = ([], []) ∧
    parseBody (line :: rest) = parseBody rest := by
  refine ⟨by decide, by decide, ?_⟩
  have hws : ∀ c ∈ line, pyIsSpace c = true := (pyStrip_eq_nil_iff line).mp h
  rw [parseBody_cons]
  rw [pyStartsWith_false_of_blank '#' hws (by decide),
    pyStartsWith_false_of_blank '#' hws (by decide),
    pyStartsWith_false_of_blank '-' hws (by decide),
    pyStartsWith_false_of_blank '`' hws (by decide)]
  simp [h]

/-- Witness for C6_parser_total, at a concrete all-whitespace line. -/
theorem C6_parser_total_witness :
    parse_markdown_to_blocks [] = ([], []) ∧
    parse_markdown_to_blocks "\n\n\n".toList = ([], []) ∧
    parseBody ("  ".toList :: ["x".toList]) = parseBody ["x".toList] :=
  C6_parser_total "  ".toList ["x".toList] (by decide)

/-- Unfolding of hasDotSpace on two leading characters. -/
theorem hasDotSpace_cons₂ (c1 c2 : Char) (r : PyStr) :
    hasDotSpace (c1 :: c2 :: r) = ((c1 == '.' && c2 == ' ') || hasDotSpace (c2 :: r)) :=
  rfl

/-- A string with a dot-space seam contains the dot-space substring. -/
theorem hasDotSpace_append_seam (a b : PyStr) :
    hasDotSpace (a ++ '.' :: ' ' :: b) = true := by
  induction a with
  | nil => simp [hasDotSpace_cons₂]
  | cons c a ih =>
    cases a with
    | nil => simp_all [hasDotSpace_cons₂]
    | cons c2 a2 => simp_all [hasDotSpace_cons₂]

/-- When no dot-space occurs before the seam, afterDotSpace returns exactly
the characters after the seam: the split really happens at the first
occurrence of the separator. -/
theorem afterDotSpace_first (a b : PyStr) (ha : hasDotSpace (a ++ ['.']) = false) :
    afterDotSpace (a ++ '.' :: ' ' :: b) = b := by
  induction a with
  | nil => simp [afterDotSpace]
  | cons c a ih =>
    cases a with
    | nil => simp [afterDotSpace]
    | cons c2 a2 =>
      rw [List.cons_append, List.cons_append] at ha
      rw [hasDotSpace_cons₂] at ha
      simp only [Bool.or_eq_false_iff] at ha
      show afterDotSpace (c :: c2 :: (a2 ++ '.' :: ' ' :: b)) = b
      rw [show afterDotSpace (c :: c2 :: (a2 ++ '.' :: ' ' :: b)) =
        if c == '.' && c2 == ' ' then a2 ++ '.' :: ' ' :: b
        else afterDotSpace (c2 :: (a2 ++ '.' :: ' ' :: b)) from rfl]
      rw [ha.1, if_neg (by simp)]
      exact ih ha.2

/-- Claim C3: after the heading and bullet prefixes have failed to match, a
line is classified as a numbered list item exactly when it is non-blank,
its first character is an ASCII digit, and it contains the dot-space
substring; its content is the trimmed remainder after the first dot-space
occurrence.  Concretely, "3. Buy milk" parses to a numbered item with text
"Buy milk" while "A1. note" falls through to a paragraph. -/
theorem C3_numbered_classification (line a b : PyStr)
    (h2 : pyStartsWith ['#', '#', ' '] line = false)
    (h3 : pyStartsWith ['#', '#', '#', ' '] line = false)
    (hb : pyStartsWith ['-', ' '] line = false)
    (ha : hasDotSpace (a ++ ['.']) = false) :
    (parseBody [line] = [Block.numbered_list_item [pyStrip (afterDotSpace line)]] ↔
      ((pyStrip line).isEmpty = false ∧ firstIsDigit line = true ∧
        hasDotSpace line = true)) ∧
    hasDotSpace (a ++ '.' :: ' ' :: b) = true ∧
    afterDotSpace (a ++ '.' :: ' ' :: b) = b ∧
    parse_markdown_to_blocks "3. Buy milk".toList =
      ([Block.numbered_list_item ["Buy milk".toList]], []) ∧
    parse_markdown_to_blocks "A1. note".toList =
      ([Block.paragraph ["A1. note".toList]], []) := by
  refine ⟨?_, hasDotSpace_append_seam a b, afterDotSpace_first a b ha,
    by decide, by decide⟩
  rw [parseBody_cons, h2, h3, hb]
  simp only [Bool.false_eq_true, if_false]
  by_cases hnum : (!(pyStrip line).isEmpty && firstIsDigit line && hasDotSpace line) = true
  · rw [if_pos hnum]
    simp only [Bool.and_eq_true, Bool.not_eq_true'] at hnum
    simp [parseBody_nil, hnum.1.1, hnum.1.2, hnum.2]
  · rw [if_neg hnum]
    have hrhs : ¬((pyStrip line).isEmpty = false ∧ firstIsDigit line = true ∧
        hasDotSpace line = true) := by
      rintro ⟨p1, p2, p3⟩
      exact hnum (by simp [p1, p2, p3])
    simp only [iff_false_intro hrhs]
    split
    · simp [parseBody_nil]
    · split
      · simp [parseBody_nil]
      · simp [parseBody_nil]

/-- Witness for C3_numbered_classification, at the concrete line
"3. Buy milk" with seam decomposition a = "3", b = "Buy milk". -/
theorem C3_numbered_classification_witness :
    (parseBody ["3. Buy milk".toList] =
        [Block.numbered_list_item [pyStrip (afterDotSpace "3. Buy milk".toList)]] ↔
      ((pyStrip "3. Buy milk".toList).isEmpty = false ∧
        firstIsDigit "3. Buy milk".toList = true ∧
        hasDotSpace "3. Buy milk".toList = true)) ∧
    hasDotSpace ("3".toList ++ '.' :: ' ' :: "Buy milk".toList) = true ∧
    afterDotSpace ("3".toList ++ '.' :: ' ' :: "Buy milk".toList) = "Buy milk".toList ∧
    parse_markdown_to_blocks "3. Buy milk".toList =
      ([Block.numbered_list_item ["Buy milk".toList]], []) ∧
    parse_markdown_to_blocks "A1. note".toList =
      ([Block.paragraph ["A1. note".toList]], []) :=
  C3_numbered_classification "3. Buy milk".toList "3".toList "Buy milk".toList
    (by decide) (by decide) (by decide) (by decide)

/-- A nonempty list all of whose elements satisfy the predicate is its own
takeWhile. -/
theorem takeWhile_eq_self_of_all {α : Type} (p : α → Bool) (l : List α)
    (h : ∀ x ∈ l, p x = true) : l.takeWhile p = l := by
  induction l with
  | nil => rfl
  | cons x xs ih =>
    rw [List.takeWhile_cons_of_pos (h x (List.mem_cons_self x xs))]
    rw [ih fun y hy => h y (List.mem_cons_of_mem x hy)]

/-- Claim C4: on a fence line, the parser takes the trimmed remainder of
the line as the language (empty becomes the literal "plain text"),
accumulates the following lines verbatim up to but not including the next
fence line (which is consumed), or to the end of input when the fence is
unterminated, and emits a single code block whose text is those lines
joined with newlines. -/
theorem C4_code_fence (t : PyStr) (rest2 rest : List PyStr)
    (hall : ∀ l ∈ rest, pyStartsWith ['`', '`', '`'] l = false) :
    (parseBody ((['`', '`', '`'] ++ t) :: rest2) =
      Block.code [joinNl (rest2.takeWhile (fun l => !pyStartsWith ['`', '`', '`'] l))]
          (if (pyStrip t).isEmpty then "plain text".toList else pyStrip t) ::
        parseBody ((rest2.dropWhile (fun l => !pyStartsWith ['`', '`', '`'] l)).drop 1)) ∧
    parseBody ((['`', '`', '`'] ++ t) :: rest) =
      [Block.code [joinNl rest]
        (if (pyStrip t).isEmpty then "plain text".toList else pyStrip t)] ∧
    parse_markdown_to_blocks "```python\nprint(1)\nprint(2)\n```".toList =
      ([Block.code ["print(1)\nprint(2)".toList] "python".toList], []) ∧
    parse_markdown_to_blocks "```js\nfoo".toList =
      ([Block.code ["foo".toList] "js".toList], []) := by
  have hgen : ∀ rs : List PyStr, parseBody ((['`', '`', '`'] ++ t) :: rs) =
      Block.code [joinNl (rs.takeWhile (fun l => !pyStartsWith ['`', '`', '`'] l))]
          (if (pyStrip t).isEmpty then "plain text".toList else pyStrip t) ::
        parseBody ((rs.dropWhile (fun l => !pyStartsWith ['`', '`', '`'] l)).drop 1) := by
    intro rs
    rw [parseBody_cons]
    rw [show pyStartsWith ['#', '#', ' '] (['`', '`', '`'] ++ t) = false from rfl,
      show pyStartsWith ['#', '#', '#', ' '] (['`', '`', '`'] ++ t) = false from rfl,
      show pyStartsWith ['-', ' '] (['`', '`', '`'] ++ t) = false from rfl,
      show firstIsDigit (['`', '`', '`'] ++ t) = false from rfl,
      show pyStartsWith ['`', '`', '`'] (['`', '`', '`'] ++ t) = true from
        pyStartsWith_append ['`', '`', '`'] t,
      show (['`', '`', '`'] ++ t).drop 3 = t from rfl]
    simp
  refine ⟨hgen rest2, ?_, by decide, by decide⟩
  rw [hgen rest]
  have htake : rest.takeWhile (fun l => !pyStartsWith ['`', '`', '`'] l) = rest :=
    takeWhile_eq_self_of_all _ rest fun l hl => by rw [hall l hl]; rfl
  have hdrop : rest.dropWhile (fun l => !pyStartsWith ['`', '`', '`'] l) = [] :=
    List.dropWhile_eq_nil_iff.mpr fun l hl => by rw [hall l hl]; rfl
  rw [htake, hdrop]
  simp [parseBody_nil]

/-- Witness for C4_code_fence, at the concrete fence head "js" and the
concrete unterminated body line "foo". -/
theorem C4_code_fence_witness :
    (parseBody ((['`', '`', '`'] ++ "js".toList) :: ["a".toList]) =
      Block.code [joinNl (["a".toList].takeWhile (fun l => !pyStartsWith ['`', '`', '`'] l))]
          (if (pyStrip "js".toList).isEmpty then "plain text".toList else pyStrip "js".toList) ::
        parseBody ((["a".toList].dropWhile (fun l => !pyStartsWith ['`', '`', '`'] l)).drop 1)) ∧
    parseBody ((['`', '`', '`'] ++ "js".toList) :: ["foo".toList]) =
      [Block.code [joinNl ["foo".toList]]
        (if (pyStrip "js".toList).isEmpty then "plain text".toList else pyStrip "js".toList)] ∧
    parse_markdown_to_blocks "```python\nprint(1)\nprint(2)\n```".toList =
      ([Block.code ["print(1)\nprint(2)".toList] "python".toList], []) ∧
    parse_markdown_to_blocks "```js\nfoo".toList =
      ([Block.code ["foo".toList] "js".toList], []) :=
  C4_code_fence "js".toList ["a".toList] ["foo".toList] (by decide)

/-- The title scan finds the first hash-space line and returns its trimmed
remainder together with the lines after it. -/
theorem titleScan_found (pre : List PyStr) (t : PyStr) (post : List PyStr)
    (hpre : ∀ l ∈ pre, pyStartsWith ['#', ' '] l = false) :
    titleScan (pre ++ (['#', ' '] ++ t) :: post) = some (pyStrip t, post) := by
  induction pre with
  | nil =>
    rw [List.nil_append]
    show titleScan ((['#', ' '] ++ t) :: post) = _
    rw [titleScan, if_pos (pyStartsWith_append ['#', ' '] t)]
    rfl
  | cons l pre ih =>
    rw [List.cons_append]
    rw [titleScan, if_neg (by rw [hpre l (List.mem_cons_self l pre)]; simp)]
    exact ih fun x hx => hpre x (List.mem_cons_of_mem l hx)

/-- When no line starts with hash-space the title scan finds nothing. -/
theorem titleScan_none (lines : List PyStr)
    (h : ∀ l ∈ lines, pyStartsWith ['#', ' '] l = false) :
    titleScan lines = none := by
  induction lines with
  | nil => rfl
  | cons l rest ih =>
    rw [titleScan, if_neg (by rw [h l (List.mem_cons_self l rest)]; simp)]
    exact ih fun x hx => h x (List.mem_cons_of_mem l hx)

/-- Claim C5: the parser takes the first hash-space line as the title
(trimmed remainder), discards every line before it and resumes body
scanning right after it; when no such line exists the title is empty and
the whole input is body.  Concretely a hash-Hello line followed by Body
yields title Hello and a single Body paragraph. -/
theorem C5_title_extraction (pre post lines : List PyStr) (t : PyStr)
    (hpre : ∀ l ∈ pre, pyStartsWith ['#', ' '] l = false)
    (hnone : ∀ l ∈ lines, pyStartsWith ['#', ' '] l = false) :
    parseLines (pre ++ (['#', ' '] ++ t) :: post) = (parseBody post, pyStrip t) ∧
    parseLines lines = (parseBody lines, []) ∧
    parse_markdown_to_blocks "# Hello\nBody".toList =
      ([Block.paragraph ["Body".toList]], "Hello".toList) := by
  refine ⟨?_, ?_, by decide⟩
  · rw [parseLines, titleScan_found pre t post hpre]
  · rw [parseLines, titleScan_none lines hnone]

/-- Witness for C5_title_extraction, with one discarded leading line, title
text Hello, one body line, and a scan over a titleless line list. -/
theorem C5_title_extraction_witness :
    parseLines (["skip".toList] ++ (['#', ' '] ++ "Hello".toList) :: ["Body".toList]) =
      (parseBody ["Body".toList], pyStrip "Hello".toList) ∧
    parseLines ["x".toList] = (parseBody ["x".toList], []) ∧
    parse_markdown_to_blocks "# Hello\nBody".toList =
      ([Block.paragraph ["Body".toList]], "Hello".toList) :=
  C5_title_extraction ["skip".toList] ["Body".toList] ["x".toList] "Hello".toList
    (by decide) (by decide)

/-- Every block the body loop produces is one of the six parser variants,
by strong induction on the number of lines. -/
theorem parseBody_variants (n : Nat) (lines : List PyStr) (hn : lines.length ≤ n) :
    ∀ b ∈ parseBody lines, isParserVariant b = true := by
  induction n generalizing lines with
  | zero =>
    have : lines = [] := List.eq_nil_of_length_eq_zero (Nat.le_zero.mp hn)
    subst this
    intro b hb
    simp [parseBody_nil] at hb
  | succ n ih =>
    intro b hb
    cases lines with
    | nil => simp [parseBody_nil] at hb
    | cons line rest =>
      have hr : rest.length ≤ n := by
        simp only [List.length_cons] at hn
        omega
      have hdrop : ((rest.dropWhile (fun l => !pyStartsWith ['`', '`', '`'] l)).drop 1).length
          ≤ n := by
        have hs := (List.dropWhile_sublist
          (p := fun l => !pyStartsWith ['`', '`', '`'] l) (l := rest)).length_le
        simp only [List.length_drop]
        omega
      rw [parseBody_cons] at hb
      split at hb
      · rcases List.mem_cons.mp hb with rfl | hb'
        · rfl
        · exact ih rest hr b hb'
      · split at hb
        · rcases List.mem_cons.mp hb with rfl | hb'
          · rfl
          · exact ih rest hr b hb'
        · split at hb
          · rcases List.mem_cons.mp hb with rfl | hb'
            · rfl
            · exact ih rest hr b hb'
          · split at hb
            · rcases List.mem_cons.mp hb with rfl | hb'
              · rfl
              · exact ih rest hr b hb'
            · split at hb
              · rcases List.mem_cons.mp hb with rfl | hb'
                · rfl
                · exact ih _ hdrop b hb'
              · split at hb
                · rcases List.mem_cons.mp hb with rfl | hb'
                  · rfl
                  · exact ih rest hr b hb'
                · exact ih rest hr b hb

/-- Claim C8: the parser only ever returns the six parser variants; in
particular it never produces a to_do or quote block. -/
theorem C8_parser_variants_only (md : PyStr) (b : Block)
    (hb : b ∈ (parse_markdown_to_blocks md).1) : isParserVariant b = true := by
  rw [parse_markdown_to_blocks, parseLines] at hb
  cases hts : titleScan (splitNl (pyStrip md)) with
  | none =>
    rw [hts] at hb
    exact parseBody_variants _ _ (Nat.le_refl _) b hb
  | some pr =>
    obtain ⟨t, rest⟩ := pr
    rw [hts] at hb
    exact parseBody_variants rest.length rest (Nat.le_refl _) b hb

/-- Witness for C8_parser_variants_only, at the output block of the input
line Body. -/
theorem C8_parser_variants_only_witness :
    isParserVariant (Block.paragraph ["Body".toList]) = true :=
  C8_parser_variants_only "Body".toList (Block.paragraph ["Body".toList]) (by decide)

/-- Prepending whitespace-only text does not change the stripped string. -/
theorem pyStrip_append_left (w x : PyStr) (hw : ∀ c ∈ w, pyIsSpace c = true) :
    pyStrip (w ++ x) = pyStrip x := by
  rw [pyStrip, pyStrip, stripLeft, stripLeft, List.dropWhile_append_of_pos hw]

/-- Appending whitespace-only text does not change the right strip. -/
theorem stripRight_append_ws (x w : PyStr) (hw : ∀ c ∈ w, pyIsSpace c = true) :
    stripRight (x ++ w) = stripRight x := by
  rw [stripRight, stripRight, List.reverse_append,
    List.dropWhile_append_of_pos fun c hc => hw c (List.mem_reverse.mp hc)]

/-- Appending whitespace-only text does not change the stripped string. -/
theorem pyStrip_append_right (x w : PyStr) (hw : ∀ c ∈ w, pyIsSpace c = true) :
    pyStrip (x ++ w) = pyStrip x := by
  rw [pyStrip, pyStrip, stripLeft, stripLeft, List.dropWhile_append]
  by_cases hx : (x.dropWhile pyIsSpace).isEmpty
  · rw [if_pos hx]
    rw [List.isEmpty_iff] at hx
    rw [hx, List.dropWhile_eq_nil_iff.mpr hw]
  · rw [if_neg hx]
    exact stripRight_append_ws _ w hw

/-- Claim C10: the parser strips whitespace from both ends of the whole
input before splitting it into lines, so whitespace-only padding around the
input never changes the result; leading indentation before the first
hash-space line still yields that title, and trailing blank lines of an
unterminated code fence are removed from the code text. -/
theorem C10_outer_strip (md w1 w2 : PyStr)
    (h1 : ∀ c ∈ w1, pyIsSpace c = true) (h2 : ∀ c ∈ w2, pyIsSpace c = true) :
    parse_markdown_to_blocks (w1 ++ md ++ w2) = parse_markdown_to_blocks md ∧
    parse_markdown_to_blocks "   # Hello\nBody".toList =
      ([Block.paragraph ["Body".toList]], "Hello".toList) ∧
    parse_markdown_to_blocks "```js\nfoo\n\n\n".toList =
      ([Block.code ["foo".toList] "js".toList], []) := by
  refine ⟨?_, by decide, by decide⟩
  rw [parse_markdown_to_blocks, parse_markdown_to_blocks, List.append_assoc,
    pyStrip_append_left _ _ h1, pyStrip_append_right _ _ h2]

/-- Witness for C10_outer_strip, at concrete whitespace padding around a
small document. -/
theorem C10_outer_strip_witness :
    parse_markdown_to_blocks (" \n".toList ++ "# T\nx".toList ++ "\t".toList) =
      parse_markdown_to_blocks "# T\nx".toList ∧
    parse_markdown_to_blocks "   # Hello\nBody".toList =
      ([Block.paragraph ["Body".toList]], "Hello".toList) ∧
    parse_markdown_to_blocks "```js\nfoo\n\n\n".toList =
      ([Block.code ["foo".toList] "js".toList], []) :=
  C10_outer_strip "# T\nx".toList " \n".toList "\t".toList (by decide) (by decide)

/-- Splitting never yields the empty list of pieces. -/
theorem splitNl_ne_nil (l : PyStr) : splitNl l ≠ [] := by
  cases l with
  | nil => simp [splitNl]
  | cons c rest =>
    rw [splitNl]
    split <;> simp

/-- joinNl on a list with at least two pieces. -/
theorem joinNl_cons_of_ne (m : PyStr) (M : List PyStr) (h : M ≠ []) :
    joinNl (m :: M) = m ++ '\n' :: joinNl M := by
  cases M with
  | nil => exact absurd rfl h
  | cons a b => rfl

/-- Splitting at newlines and joining with newlines are inverse. -/
theorem joinNl_splitNl (l : PyStr) : joinNl (splitNl l) = l := by
  induction l with
  | nil => rfl
  | cons c rest ih =>
    rw [splitNl]
    by_cases h : c = '\n'
    · subst h
      rw [if_pos (by simp), joinNl_cons_of_ne _ _ (splitNl_ne_nil rest), ih]
      rfl
    · rw [if_neg (by simp [h])]
      obtain ⟨p, ps, hps⟩ : ∃ p ps, splitNl rest = p :: ps := by
        cases hs : splitNl rest with
        | nil => exact absurd hs (splitNl_ne_nil rest)
        | cons p ps => exact ⟨p, ps, rfl⟩
      rw [hps]
      simp only [List.headI, List.tail_cons]
      cases ps with
      | nil =>
        rw [hps] at ih
        simp only [joinNl] at ih ⊢
        rw [ih]
      | cons q qs =>
        rw [joinNl_cons_of_ne _ _ (by simp)]
        rw [hps, joinNl_cons_of_ne _ _ (by simp)] at ih
        rw [List.cons_append, ih]

/-- No piece of a split contains a newline. -/
theorem splitNl_no_nl (l : PyStr) : ∀ p ∈ splitNl l, '\n' ∉ p := by
  induction l with
  | nil =>
    intro p hp
    simp [splitNl] at hp
    simp [hp]
  | cons c rest ih =>
    intro p hp
    rw [splitNl] at hp
    by_cases h : c = '\n'
    · subst h
      rw [if_pos (by simp)] at hp
      rcases List.mem_cons.mp hp with rfl | hp'
      · simp
      · exact ih p hp'
    · rw [if_neg (by simp [h])] at hp
      obtain ⟨q, qs, hqs⟩ : ∃ q qs, splitNl rest = q :: qs := by
        cases hs : splitNl rest with
        | nil => exact absurd hs (splitNl_ne_nil rest)
        | cons q qs => exact ⟨q, qs, rfl⟩
      rw [hqs] at hp
      simp only [List.headI, List.tail_cons] at hp
      rcases List.mem_cons.mp hp with rfl | hp'
      · intro hmem
        rcases List.mem_cons.mp hmem with h1 | h2
        · exact h h1.symm
        · exact ih q (by rw [hqs]; exact List.mem_cons_self q qs) h2
      · exact ih p (by rw [hqs]; exact List.mem_cons_of_mem q hp')

/-- A newline-free string splits into itself alone. -/
theorem splitNl_of_no_nl (l : PyStr) (h : '\n' ∉ l) : splitNl l = [l] := by
  induction l with
  | nil => rfl
  | cons c rest ih =>
    have hc : c ≠ '\n' := fun he => h (he ▸ List.mem_cons_self c rest)
    have hr : '\n' ∉ rest := fun hm => h (List.mem_cons_of_mem c hm)
    rw [splitNl, if_neg (by simp [hc])]
    · rw [ih hr]
      rfl

/-- Splitting a string with a newline-free first line. -/
theorem splitNl_append_cons (m r : PyStr) (h : '\n' ∉ m) :
    splitNl (m ++ '\n' :: r) = m :: splitNl r := by
  induction m with
  | nil =>
    rw [List.nil_append, splitNl, if_pos (by simp)]
  | cons c m ih =>
    have hc : c ≠ '\n' := fun he => h (he ▸ List.mem_cons_self c m)
    have hm : '\n' ∉ m := fun hmem => h (List.mem_cons_of_mem c hmem)
    rw [List.cons_append, splitNl, if_neg (by simp [hc]), ih hm]
    rfl

/-- Joining newline-free lines and splitting gives back the lines. -/
theorem splitNl_joinNl (M : List PyStr) (hM : M ≠ []) (h : ∀ l ∈ M, '\n' ∉ l) :
    splitNl (joinNl M) = M := by
  induction M with
  | nil => exact absurd rfl hM
  | cons m M ih =>
    cases M with
    | nil => exact splitNl_of_no_nl m (h m (List.mem_cons_self m []))
    | cons m2 M2 =>
      rw [joinNl_cons_of_ne _ _ (by simp),
        splitNl_append_cons _ _ (h m (List.mem_cons_self m _)),
        ih (by simp) fun l hl => h l (List.mem_cons_of_mem m hl)]

/-- joinNl distributes over append of nonempty line lists. -/
theorem joinNl_append (A B : List PyStr) (hA : A ≠ []) (hB : B ≠ []) :
    joinNl (A ++ B) = joinNl A ++ '\n' :: joinNl B := by
  induction A with
  | nil => exact absurd rfl hA
  | cons a A ih =>
    cases A with
    | nil =>
      rw [List.singleton_append, joinNl_cons_of_ne a B hB]
      rfl
    | cons a2 A2 =>
      rw [List.cons_append, joinNl_cons_of_ne _ _ (by simp),
        ih (by simp), joinNl_cons_of_ne a (a2 :: A2) (by simp)]
      simp

/-- Joining a run of blank lines yields a run of newlines. -/
theorem joinNl_replicate_blank (k : Nat) :
    joinNl (List.replicate (k + 1) ([] : PyStr)) = List.replicate k '\n' := by
  induction k with
  | zero => rfl
  | succ k ih =>
    rw [List.replicate_succ (n := k + 1),
      joinNl_cons_of_ne _ _ (by simp [List.replicate_succ]), ih]
    simp [List.replicate_succ]

/-- Trailing blank lines join as trailing newlines. -/
theorem joinNl_append_replicate (M : List PyStr) (k : Nat) (hM : M ≠ []) :
    joinNl (M ++ List.replicate k []) = joinNl M ++ List.replicate k '\n' := by
  cases k with
  | zero => simp
  | succ k =>
    rw [joinNl_append M _ hM (by simp [List.replicate_succ]), joinNl_replicate_blank]
    simp [List.replicate_succ]

/-- A solid-start line anchors the left strip. -/
theorem stripLeft_eq_self (m s : PyStr) (h : lineStartsSolid m = true) :
    stripLeft (m ++ s) = m ++ s := by
  cases m with
  | nil => simp [lineStartsSolid] at h
  | cons c m' =>
    have hc : pyIsSpace c = false := by
      simpa [lineStartsSolid] using h
    rw [List.cons_append, stripLeft, List.dropWhile_cons_of_neg (by simp [hc])]

/-- A solid-end line anchors the right strip. -/
theorem stripRight_eq_self (s m : PyStr) (h : lineEndsSolid m = true) :
    stripRight (s ++ m) = s ++ m := by
  cases hm : m.reverse with
  | nil => rw [lineEndsSolid, hm] at h; simp at h
  | cons c r =>
    rw [lineEndsSolid, hm] at h
    rw [stripRight, List.reverse_append, hm,
      show (c :: r) ++ s.reverse = c :: (r ++ s.reverse) from rfl,
      List.dropWhile_cons_of_neg (by simpa using h),
      show c :: (r ++ s.reverse) = (c :: r) ++ s.reverse from rfl, ← hm,
      ← List.reverse_append, List.reverse_reverse]

/-- A line that is solid at both ends is its own strip. -/
theorem pyStrip_eq_self_of_solid (m : PyStr) (hs : lineStartsSolid m = true)
    (he : lineEndsSolid m = true) : pyStrip m = m := by
  have h1 : stripLeft m = m := by
    have := stripLeft_eq_self m [] hs
    simpa using this
  have h2 : stripRight m = m := by
    have := stripRight_eq_self [] m he
    simpa using this
  rw [pyStrip, h1, h2]

/-- If dropWhile keeps a cons intact, its head fails the predicate. -/
theorem dropWhile_eq_self_head {α : Type} (p : α → Bool) (c : α) (r : List α)
    (h : List.dropWhile p (c :: r) = c :: r) : p c = false := by
  cases hc : p c with
  | false => rfl
  | true =>
    rw [List.dropWhile_cons_of_pos hc] at h
    have h1 := congrArg List.length h
    have h2 := (List.dropWhile_sublist (p := p) (l := r)).length_le
    simp at h1
    omega

/-- A nonempty trimmed line is solid at both ends. -/
theorem pyStrip_self_solid (t : PyStr) (h : pyStrip t = t) (hne : t ≠ []) :
    lineStartsSolid t = true ∧ lineEndsSolid t = true := by
  have hsubR : ∀ x : PyStr, (stripRight x).length ≤ x.length := by
    intro x
    rw [stripRight]
    have := (List.dropWhile_sublist (p := pyIsSpace) (l := x.reverse)).length_le
    simpa using this
  have hsubL : ∀ x : PyStr, (stripLeft x).length ≤ x.length := by
    intro x
    exact (List.dropWhile_sublist (p := pyIsSpace) (l := x)).length_le
  have hlen : (stripLeft t).length = t.length := by
    have h1 : t.length ≤ (stripLeft t).length := by
      conv_lhs => rw [← h]
      exact Nat.le_trans (hsubR (stripLeft t)) (Nat.le_refl _)
    exact Nat.le_antisymm (hsubL t) h1
  have hSL : stripLeft t = t :=
    (List.dropWhile_sublist (p := pyIsSpace) (l := t)).eq_of_length hlen
  have hSR : stripRight t = t := by
    rw [pyStrip, hSL] at h
    exact h
  constructor
  · cases t with
    | nil => exact absurd rfl hne
    | cons c r =>
      rw [stripLeft] at hSL
      show (!pyIsSpace c) = true
      rw [dropWhile_eq_self_head pyIsSpace c r hSL]
      rfl
  · have hrev : List.dropWhile pyIsSpace t.reverse = t.reverse := by
      have := congrArg List.reverse hSR
      rw [stripRight, List.reverse_reverse] at this
      exact this
    cases ht : t.reverse with
    | nil => simp at ht; exact absurd ht hne
    | cons c r =>
      rw [ht] at hrev
      rw [show lineEndsSolid t = !pyIsSpace c by rw [lineEndsSolid, ht]]
      rw [dropWhile_eq_self_head pyIsSpace c r hrev]
      rfl

/-- Solid line ends are preserved by prepending. -/
theorem lineEndsSolid_append (a t : PyStr) (ht : t ≠ []) :
    lineEndsSolid (a ++ t) = lineEndsSolid t := by
  cases htr : t.reverse with
  | nil => simp at htr; exact absurd htr ht
  | cons c r =>
    rw [lineEndsSolid, lineEndsSolid, List.reverse_append, htr, List.cons_append]

/-- The join of a line list starts with its first line. -/
theorem joinNl_head_decomp (M : List PyStr) (hd : PyStr) (h : M.head? = some hd) :
    ∃ s, joinNl M = hd ++ s := by
  cases M with
  | nil => simp at h
  | cons m M' =>
    rw [List.head?_cons, Option.some.injEq] at h
    subst h
    cases M' with
    | nil => exact ⟨[], by simp [joinNl]⟩
    | cons m2 M2 => exact ⟨'\n' :: joinNl (m2 :: M2), rfl⟩

/-- The join of a line list ends with its last line. -/
theorem joinNl_last_decomp (M : List PyStr) (lst : PyStr) (h : M.getLast? = some lst) :
    ∃ s, joinNl M = s ++ lst := by
  induction M with
  | nil => simp at h
  | cons m M' ih =>
    cases M' with
    | nil =>
      rw [List.getLast?_singleton, Option.some.injEq] at h
      exact ⟨[], by simp [joinNl, h]⟩
    | cons m2 M2 =>
      rw [List.getLast?_cons_cons] at h
      obtain ⟨s, hs⟩ := ih h
      refine ⟨m ++ '\n' :: s, ?_⟩
      rw [joinNl_cons_of_ne _ _ (by simp), hs]
      simp

/-- The strip of a join of solid-ended lines plus trailing blank lines is
the join of the lines. -/
theorem pyStrip_joinNl_decomp (M : List PyStr) (k : Nat) (hM : M ≠ [])
    (hh : ∀ hd, M.head? = some hd → lineStartsSolid hd = true)
    (hl : ∀ lst, M.getLast? = some lst → lineEndsSolid lst = true) :
    pyStrip (joinNl (M ++ List.replicate k [])) = joinNl M := by
  rw [joinNl_append_replicate M k hM,
    pyStrip_append_right _ _ (by
      intro c hc
      rw [List.eq_of_mem_replicate hc]
      rfl)]
  obtain ⟨hd, hhd⟩ : ∃ hd, M.head? = some hd := by
    cases M with
    | nil => exact absurd rfl hM
    | cons m M' => exact ⟨m, rfl⟩
  obtain ⟨lst, hlst⟩ : ∃ lst, M.getLast? = some lst := by
    cases hgl : M.getLast? with
    | none => exact absurd (List.getLast?_eq_none_iff.mp hgl) hM
    | some x => exact ⟨x, rfl⟩
  obtain ⟨s1, hs1⟩ := joinNl_head_decomp M hd hhd
  obtain ⟨s2, hs2⟩ := joinNl_last_decomp M lst hlst
  have e1 : stripLeft (joinNl M) = joinNl M := by
    rw [hs1]
    exact stripLeft_eq_self hd s1 (hh hd hhd)
  have e2 : stripRight (joinNl M) = joinNl M := by
    rw [hs2]
    exact stripRight_eq_self s2 lst (hl lst hlst)
  rw [pyStrip, e1, e2]

/-- A blank line at the head of the body is skipped. -/
theorem parseBody_nil_cons (X : List PyStr) : parseBody ([] :: X) = parseBody X := by
  rw [parseBody_cons]
  rfl

/-- Any run of blank lines at the head of the body is skipped. -/
theorem parseBody_replicate_append (k : Nat) (X : List PyStr) :
    parseBody (List.replicate k [] ++ X) = parseBody X := by
  induction k with
  | zero => rfl
  | succ k ih => rw [List.replicate_succ, List.cons_append, parseBody_nil_cons, ih]

/-- Body classification of a serialized heading_2 line. -/
theorem parseBody_heading2_cons (t : PyStr) (X : List PyStr) (ht : pyStrip t = t) :
    parseBody ((['#', '#', ' '] ++ t) :: X) = Block.heading_2 [t] :: parseBody X := by
  rw [parseBody_cons, if_pos (pyStartsWith_append ['#', '#', ' '] t),
    show (['#', '#', ' '] ++ t).drop 3 = t from rfl, ht]

/-- Body classification of a serialized heading_3 line. -/
theorem parseBody_heading3_cons (t : PyStr) (X : List PyStr) (ht : pyStrip t = t) :
    parseBody ((['#', '#', '#', ' '] ++ t) :: X) = Block.heading_3 [t] :: parseBody X := by
  rw [parseBody_cons,
    show pyStartsWith ['#', '#', ' '] (['#', '#', '#', ' '] ++ t) = false from rfl]
  simp only [Bool.false_eq_true, if_false]
  rw [if_pos (pyStartsWith_append ['#', '#', '#', ' '] t),
    show (['#', '#', '#', ' '] ++ t).drop 4 = t from rfl, ht]

/-- Body classification of a serialized bulleted item line. -/
theorem parseBody_bullet_cons (t : PyStr) (X : List PyStr) (ht : pyStrip t = t) :
    parseBody ((['-', ' '] ++ t) :: X) = Block.bulleted_list_item [t] :: parseBody X := by
  rw [parseBody_cons,
    show pyStartsWith ['#', '#', ' '] (['-', ' '] ++ t) = false from rfl,
    show pyStartsWith ['#', '#', '#', ' '] (['-', ' '] ++ t) = false from rfl]
  simp only [Bool.false_eq_true, if_false]
  rw [if_pos (pyStartsWith_append ['-', ' '] t),
    show (['-', ' '] ++ t).drop 2 = t from rfl, ht]

/-- Body classification of a serialized numbered item line. -/
theorem parseBody_numbered_cons (t : PyStr) (X : List PyStr) (ht : pyStrip t = t) :
    parseBody ((['1', '.', ' '] ++ t) :: X) = Block.numbered_list_item [t] :: parseBody X := by
  have hne : (pyStrip (['1', '.', ' '] ++ t)).isEmpty = false := by
    cases hps : pyStrip (['1', '.', ' '] ++ t) with
    | nil =>
      have := (pyStrip_eq_nil_iff _).mp hps '1' (by simp)
      simp [pyIsSpace] at this
    | cons a b => rfl
  rw [parseBody_cons,
    show pyStartsWith ['#', '#', ' '] (['1', '.', ' '] ++ t) = false from rfl,
    show pyStartsWith ['#', '#', '#', ' '] (['1', '.', ' '] ++ t) = false from rfl,
    show pyStartsWith ['-', ' '] (['1', '.', ' '] ++ t) = false from rfl,
    show firstIsDigit (['1', '.', ' '] ++ t) = true from rfl,
    show hasDotSpace (['1', '.', ' '] ++ t) = true from rfl, hne,
    show afterDotSpace (['1', '.', ' '] ++ t) = t from rfl, ht]
  simp

/-- Body classification of a serialized code fence: the language is the
trimmed fence remainder (empty becomes "plain text"), the code lines run to
the closing fence, which is consumed. -/
theorem parseBody_fence_cons (lang t : PyStr) (X : List PyStr)
    (hlines : ∀ l ∈ splitNl t, pyStartsWith ['`', '`', '`'] l = false) :
    parseBody ((['`', '`', '`'] ++ lang) :: (splitNl t ++ ['`', '`', '`'] :: X)) =
      Block.code [t]
          (if (pyStrip lang).isEmpty then "plain text".toList else pyStrip lang) ::
        parseBody X := by
  have htake : (splitNl t ++ ['`', '`', '`'] :: X).takeWhile
      (fun l => !pyStartsWith ['`', '`', '`'] l) = splitNl t := by
    rw [List.takeWhile_append_of_pos (by intro a ha; simp [hlines a ha]),
      List.takeWhile_cons_of_neg
        (by simp [show pyStartsWith ['`', '`', '`'] ['`', '`', '`'] = true from rfl])]
    simp
  have hdrop : (splitNl t ++ ['`', '`', '`'] :: X).dropWhile
      (fun l => !pyStartsWith ['`', '`', '`'] l) = ['`', '`', '`'] :: X := by
    rw [List.dropWhile_append_of_pos (by intro a ha; simp [hlines a ha]),
      List.dropWhile_cons_of_neg
        (by simp [show pyStartsWith ['`', '`', '`'] ['`', '`', '`'] = true from rfl])]
  rw [parseBody_cons,
    show pyStartsWith ['#', '#', ' '] (['`', '`', '`'] ++ lang) = false from rfl,
    show pyStartsWith ['#', '#', '#', ' '] (['`', '`', '`'] ++ lang) = false from rfl,
    show pyStartsWith ['-', ' '] (['`', '`', '`'] ++ lang) = false from rfl,
    show firstIsDigit (['`', '`', '`'] ++ lang) = false from rfl]
  simp only [Bool.and_false, Bool.false_and, Bool.false_eq_true, if_false]
  rw [if_pos (pyStartsWith_append ['`', '`', '`'] lang), htake, hdrop,
    show (['`', '`', '`'] ++ lang).drop 3 = lang from rfl, joinNl_splitNl,
    List.drop_one, List.tail_cons]
  rfl

/-- Body classification of a serialized paragraph line. -/
theorem parseBody_plain_cons (t : PyStr) (X : List PyStr) (ht : pyStrip t = t)
    (hne : t ≠ []) (hp : plainLine t = true) :
    parseBody (t :: X) = Block.paragraph [t] :: parseBody X := by
  simp only [plainLine, Bool.and_eq_true, Bool.not_eq_true'] at hp
  obtain ⟨⟨⟨⟨⟨h1, h2⟩, h3⟩, h4⟩, h5⟩, h6⟩ := hp
  have hnum : (!(pyStrip t).isEmpty && firstIsDigit t && hasDotSpace t) = false := by
    cases hf : firstIsDigit t with
    | false => simp [hf]
    | true =>
      have hh : hasDotSpace t = false := by
        rw [hf] at h6
        simpa using h6
      simp [hh]
  have hpe : (pyStrip t).isEmpty = false := by
    rw [ht]
    cases t with
    | nil => exact absurd rfl hne
    | cons c r => rfl
  rw [parseBody_cons, h2, h3, h4, hnum, h5]
  simp only [Bool.false_eq_true, if_false]
  rw [hpe]
  simp [ht]

/-- Decomposition of the lines of one canonical block: a nonempty solid
core plus possibly one trailing blank line, such that the body loop
consumes the core and emits the reparsed block, whatever lines follow. -/
theorem blockLines_decomp (b : Block) (hb : canonicalBlock b = true) :
    ∃ Mb kb, blockLines b = Mb ++ List.replicate kb ([] : PyStr) ∧
      Mb ≠ [] ∧
      (∀ X, parseBody (Mb ++ X) = reparse b :: parseBody X) ∧
      (∀ hd, Mb.head? = some hd → lineStartsSolid hd = true) ∧
      (∀ lst, Mb.getLast? = some lst → lineEndsSolid lst = true) := by
  cases b with
  | heading_1 rich => simp [canonicalBlock] at hb
  | to_do checked rich => simp [canonicalBlock] at hb
  | quote rich => simp [canonicalBlock] at hb
  | other tag => simp [canonicalBlock] at hb
  | heading_2 rich =>
    match rich with
    | [] => simp [canonicalBlock] at hb
    | t :: t2 :: ts => simp [canonicalBlock] at hb
    | [t] =>
      have hok : pyStrip t = t ∧ t ≠ [] ∧ '\n' ∉ t := by
        simpa [canonicalBlock, lineOk] using hb
      have hext : extractTextContent [t] = t := by simp [extractTextContent]
      refine ⟨[['#', '#', ' '] ++ t], 1, ?_, by simp, ?_, ?_, ?_⟩
      · simp [blockLines, serializeBlock, hext]
      · intro X
        rw [List.singleton_append, parseBody_heading2_cons t X hok.1]
        rfl
      · intro hd hhd
        simp only [List.head?_cons, Option.some.injEq] at hhd
        subst hhd
        rfl
      · intro lst hlst
        simp only [List.getLast?_singleton, Option.some.injEq] at hlst
        subst hlst
        rw [lineEndsSolid_append _ _ hok.2.1]
        exact (pyStrip_self_solid t hok.1 hok.2.1).2
  | heading_3 rich =>
    match rich with
    | [] => simp [canonicalBlock] at hb
    | t :: t2 :: ts => simp [canonicalBlock] at hb
    | [t] =>
      have hok : pyStrip t = t ∧ t ≠ [] ∧ '\n' ∉ t := by
        simpa [canonicalBlock, lineOk] using hb
      have hext : extractTextContent [t] = t := by simp [extractTextContent]
      refine ⟨[['#', '#', '#', ' '] ++ t], 1, ?_, by simp, ?_, ?_, ?_⟩
      · simp [blockLines, serializeBlock, hext]
      · intro X
        rw [List.singleton_append, parseBody_heading3_cons t X hok.1]
        rfl
      · intro hd hhd
        simp only [List.head?_cons, Option.some.injEq] at hhd
        subst hhd
        rfl
      · intro lst hlst
        simp only [List.getLast?_singleton, Option.some.injEq] at hlst
        subst hlst
        rw [lineEndsSolid_append _ _ hok.2.1]
        exact (pyStrip_self_solid t hok.1 hok.2.1).2
  | bulleted_list_item rich =>
    match rich with
    | [] => simp [canonicalBlock] at hb
    | t :: t2 :: ts => simp [canonicalBlock] at hb
    | [t] =>
      have hok : pyStrip t = t ∧ t ≠ [] ∧ '\n' ∉ t := by
        simpa [canonicalBlock, lineOk] using hb
      have hext : extractTextContent [t] = t := by simp [extractTextContent]
      refine ⟨[['-', ' '] ++ t], 0, ?_, by simp, ?_, ?_, ?_⟩
      · simp [blockLines, serializeBlock, hext]
      · intro X
        rw [List.singleton_append, parseBody_bullet_cons t X hok.1]
        rfl
      · intro hd hhd
        simp only [List.head?_cons, Option.some.injEq] at hhd
        subst hhd
        rfl
      · intro lst hlst
        simp only [List.getLast?_singleton, Option.some.injEq] at hlst
        subst hlst
        rw [lineEndsSolid_append _ _ hok.2.1]
        exact (pyStrip_self_solid t hok.1 hok.2.1).2
  | numbered_list_item rich =>
    match rich with
    | [] => simp [canonicalBlock] at hb
    | t :: t2 :: ts => simp [canonicalBlock] at hb
    | [t] =>
      have hok : pyStrip t = t ∧ t ≠ [] ∧ '\n' ∉ t := by
        simpa [canonicalBlock, lineOk] using hb
      have hext : extractTextContent [t] = t := by simp [extractTextContent]
      refine ⟨[['1', '.', ' '] ++ t], 0, ?_, by simp, ?_, ?_, ?_⟩
      · simp [blockLines, serializeBlock, hext]
      · intro X
        rw [List.singleton_append, parseBody_numbered_cons t X hok.1]
        rfl
      · intro hd hhd
        simp only [List.head?_cons, Option.some.injEq] at hhd
        subst hhd
        rfl
      · intro lst hlst
        simp only [List.getLast?_singleton, Option.some.injEq] at hlst
        subst hlst
        rw [lineEndsSolid_append _ _ hok.2.1]
        exact (pyStrip_self_solid t hok.1 hok.2.1).2
  | paragraph rich =>
    match rich with
    | [] => simp [canonicalBlock] at hb
    | t :: t2 :: ts => simp [canonicalBlock] at hb
    | [t] =>
      have hok : (pyStrip t = t ∧ t ≠ [] ∧ '\n' ∉ t) ∧ plainLine t = true := by
        simpa [canonicalBlock, lineOk, Bool.and_eq_true] using hb
      have hext : extractTextContent [t] = t := by simp [extractTextContent]
      refine ⟨[t], 1, ?_, by simp [hok.1.2.1], ?_, ?_, ?_⟩
      · simp [blockLines, serializeBlock, hext]
      · intro X
        rw [List.singleton_append, parseBody_plain_cons t X hok.1.1 hok.1.2.1 hok.2]
        rfl
      · intro hd hhd
        simp only [List.head?_cons, Option.some.injEq] at hhd
        subst hhd
        exact (pyStrip_self_solid t hok.1.1 hok.1.2.1).1
      · intro lst hlst
        simp only [List.getLast?_singleton, Option.some.injEq] at hlst
        subst hlst
        exact (pyStrip_self_solid t hok.1.1 hok.1.2.1).2
  | code rich lang =>
    match rich with
    | [] => simp [canonicalBlock] at hb
    | t :: t2 :: ts => simp [canonicalBlock] at hb
    | [t] =>
      have hok : '\n' ∉ lang ∧ ∀ l ∈ splitNl t, codeLineOk l = true := by
        simpa [canonicalBlock, Bool.and_eq_true] using hb
      have hfence : ∀ l ∈ splitNl t, pyStartsWith ['`', '`', '`'] l = false := by
        intro l hl
        have := hok.2 l hl
        simp only [codeLineOk, Bool.and_eq_true, Bool.not_eq_true'] at this
        exact this.1
      have hext : extractTextContent [t] = t := by simp [extractTextContent]
      refine ⟨(['`', '`', '`'] ++ lang) :: (splitNl t ++ [['`', '`', '`']]), 1,
        ?_, by simp, ?_, ?_, ?_⟩
      · simp [blockLines, serializeBlock, hext]
      · intro X
        rw [show ((['`', '`', '`'] ++ lang) :: (splitNl t ++ [['`', '`', '`']])) ++ X =
            (['`', '`', '`'] ++ lang) :: (splitNl t ++ ['`', '`', '`'] :: X) by simp,
          parseBody_fence_cons lang t X hfence]
        rfl
      · intro hd hhd
        simp only [List.head?_cons, Option.some.injEq] at hhd
        subst hhd
        rfl
      · intro lst hlst
        rw [show (['`', '`', '`'] ++ lang) :: (splitNl t ++ [['`', '`', '`']]) =
            ((['`', '`', '`'] ++ lang) :: splitNl t) ++ [['`', '`', '`']] by simp,
          List.getLast?_concat, Option.some.injEq] at hlst
        subst hlst
        rfl

/-- Inside a join, one entry may be replaced by its newline split. -/
theorem joinNl_splice (A B : List PyStr) (t : PyStr) :
    joinNl (A ++ t :: B) = joinNl (A ++ (splitNl t ++ B)) := by
  induction A with
  | nil =>
    simp only [List.nil_append]
    cases B with
    | nil =>
      rw [List.append_nil, joinNl_splitNl]
      rfl
    | cons b B' =>
      rw [joinNl_cons_of_ne _ _ (by simp),
        joinNl_append (splitNl t) _ (splitNl_ne_nil t) (by simp), joinNl_splitNl]
  | cons a A' ih =>
    rw [List.cons_append, List.cons_append,
      joinNl_cons_of_ne _ _ (by simp),
      joinNl_cons_of_ne _ _ (by
        intro hcontra
        have h2 := (List.append_eq_nil.mp hcontra).2
        exact splitNl_ne_nil t (List.append_eq_nil.mp h2).1), ih]

/-- Replacing each block's md_lines entries by its line view does not
change the joined document. -/
theorem joinNl_flatMap_blockLines (PRE : List PyStr) (bs : List Block) :
    joinNl (PRE ++ bs.flatMap serializeBlock) = joinNl (PRE ++ bs.flatMap blockLines) := by
  induction bs generalizing PRE with
  | nil => rfl
  | cons b rest ih =>
    rw [List.flatMap_cons, List.flatMap_cons]
    have hsplice : joinNl (PRE ++ (serializeBlock b ++ rest.flatMap serializeBlock)) =
        joinNl (PRE ++ (blockLines b ++ rest.flatMap serializeBlock)) := by
      cases b
      case code rich lang =>
        rw [show PRE ++ (serializeBlock (Block.code rich lang) ++ rest.flatMap serializeBlock) =
            (PRE ++ [['`', '`', '`'] ++ lang]) ++ extractTextContent rich ::
              (['`', '`', '`'] :: ([] : PyStr) :: rest.flatMap serializeBlock) by
            simp [serializeBlock],
          joinNl_splice,
          show (PRE ++ [['`', '`', '`'] ++ lang]) ++ (splitNl (extractTextContent rich) ++
              (['`', '`', '`'] :: ([] : PyStr) :: rest.flatMap serializeBlock)) =
            PRE ++ (blockLines (Block.code rich lang) ++ rest.flatMap serializeBlock) by
            simp [blockLines]]
      all_goals rfl
    rw [hsplice,
      show PRE ++ (blockLines b ++ rest.flatMap serializeBlock) =
        (PRE ++ blockLines b) ++ rest.flatMap serializeBlock by simp,
      ih (PRE ++ blockLines b),
      show (PRE ++ blockLines b) ++ rest.flatMap blockLines =
        PRE ++ (blockLines b ++ rest.flatMap blockLines) by simp]

/-- The line view of a canonical nonempty block list decomposes into a
solid core followed by trailing blank lines; the body loop parses the core
to the reparsed blocks. -/
theorem flatMap_canonical_decomp (bs : List Block) (hne : bs ≠ [])
    (h : ∀ b ∈ bs, canonicalBlock b = true) :
    ∃ M k, bs.flatMap blockLines = M ++ List.replicate k ([] : PyStr) ∧
      M ≠ [] ∧
      parseBody M = bs.map reparse ∧
      (∀ hd, M.head? = some hd → lineStartsSolid hd = true) ∧
      (∀ lst, M.getLast? = some lst → lineEndsSolid lst = true) := by
  induction bs with
  | nil => exact absurd rfl hne
  | cons b rest ih =>
    obtain ⟨Mb, kb, hbl, hMbne, hcons, hbhead, hblast⟩ :=
      blockLines_decomp b (h b (List.mem_cons_self b rest))
    cases rest with
    | nil =>
      refine ⟨Mb, kb, by simpa using hbl, hMbne, ?_, hbhead, hblast⟩
      have hx := hcons []
      rw [List.append_nil] at hx
      rw [hx, parseBody_nil]
      rfl
    | cons b2 rest2 =>
      obtain ⟨Mr, kr, hrdec, hMrne, hrparse, hrhead, hrlast⟩ :=
        ih (by simp) fun x hx => h x (List.mem_cons_of_mem b hx)
      refine ⟨Mb ++ (List.replicate kb [] ++ Mr), kr, ?_, by simp [hMbne], ?_, ?_, ?_⟩
      · rw [List.flatMap_cons, hbl, hrdec]
        simp
      · rw [hcons (List.replicate kb [] ++ Mr), parseBody_replicate_append, hrparse]
        rfl
      · intro hd hhd
        cases Mb with
        | nil => exact absurd rfl hMbne
        | cons m mb =>
          simp only [List.cons_append, List.head?_cons, Option.some.injEq] at hhd
          subst hhd
          exact hbhead _ rfl
      · intro lst hlst
        rw [List.getLast?_append, List.getLast?_append] at hlst
        cases hgl : Mr.getLast? with
        | none => exact absurd (List.getLast?_eq_none_iff.mp hgl) hMrne
        | some x =>
          rw [hgl] at hlst
          simp only [Option.or_some, Option.some.injEq] at hlst
          subst hlst
          exact hrlast x hgl

/-- Reparsing only adjusts the code language, which the type-and-text view
ignores. -/
theorem typeText_reparse (b : Block) : typeText (reparse b) = typeText b := by
  cases b <;> rfl

/-- No line of a canonical block looks like a title line. -/
theorem blockLines_no_title (b : Block) (hb : canonicalBlock b = true) :
    ∀ l ∈ blockLines b, pyStartsWith ['#', ' '] l = false := by
  cases b with
  | heading_1 rich => simp [canonicalBlock] at hb
  | to_do checked rich => simp [canonicalBlock] at hb
  | quote rich => simp [canonicalBlock] at hb
  | other tag => simp [canonicalBlock] at hb
  | heading_2 rich =>
    intro l hl
    simp only [blockLines, serializeBlock, List.mem_cons, List.mem_singleton] at hl
    rcases hl with rfl | rfl | h
    · rfl
    · rfl
    · simp at h
  | heading_3 rich =>
    intro l hl
    simp only [blockLines, serializeBlock, List.mem_cons, List.mem_singleton] at hl
    rcases hl with rfl | rfl | h
    · rfl
    · rfl
    · simp at h
  | bulleted_list_item rich =>
    intro l hl
    simp only [blockLines, serializeBlock, List.mem_cons, List.mem_singleton] at hl
    rcases hl with rfl | h
    · rfl
    · simp at h
  | numbered_list_item rich =>
    intro l hl
    simp only [blockLines, serializeBlock, List.mem_cons, List.mem_singleton] at hl
    rcases hl with rfl | h
    · rfl
    · simp at h
  | paragraph rich =>
    match rich with
    | [] => simp [canonicalBlock] at hb
    | t :: t2 :: ts => simp [canonicalBlock] at hb
    | [t] =>
      have hok : (pyStrip t = t ∧ t ≠ [] ∧ '\n' ∉ t) ∧ plainLine t = true := by
        simpa [canonicalBlock, lineOk, Bool.and_eq_true] using hb
      have hp1 : pyStartsWith ['#', ' '] t = false := by
        have := hok.2
        simp only [plainLine, Bool.and_eq_true, Bool.not_eq_true'] at this
        exact this.1.1.1.1.1
      intro l hl
      simp only [blockLines, serializeBlock, List.mem_cons, List.mem_singleton] at hl
      rcases hl with rfl | rfl | h
      · simpa [extractTextContent] using hp1
      · rfl
      · simp at h
  | code rich lang =>
    match rich with
    | [] => simp [canonicalBlock] at hb
    | t :: t2 :: ts => simp [canonicalBlock] at hb
    | [t] =>
      have hok : '\n' ∉ lang ∧ ∀ l ∈ splitNl t, codeLineOk l = true := by
        simpa [canonicalBlock, Bool.and_eq_true] using hb
      intro l hl
      simp only [blockLines, List.mem_cons, List.mem_append, List.mem_singleton] at hl
      rcases hl with rfl | hsp | rfl | rfl | h
      · rfl
      · have := hok.2 l (by simpa [extractTextContent] using hsp)
        simp only [codeLineOk, Bool.and_eq_true, Bool.not_eq_true'] at this
        exact this.2
      · rfl
      · rfl
      · simp at h

/-- No line of a canonical block contains a newline. -/
theorem blockLines_no_nl (b : Block) (hb : canonicalBlock b = true) :
    ∀ l ∈ blockLines b, '\n' ∉ l := by
  cases b with
  | heading_1 rich => simp [canonicalBlock] at hb
  | to_do checked rich => simp [canonicalBlock] at hb
  | quote rich => simp [canonicalBlock] at hb
  | other tag => simp [canonicalBlock] at hb
  | heading_2 rich =>
    match rich with
    | [] => simp [canonicalBlock] at hb
    | t :: t2 :: ts => simp [canonicalBlock] at hb
    | [t] =>
      have hok : pyStrip t = t ∧ t ≠ [] ∧ '\n' ∉ t := by
        simpa [canonicalBlock, lineOk] using hb
      intro l hl
      simp only [blockLines, serializeBlock, List.mem_cons, List.mem_singleton] at hl
      rcases hl with rfl | rfl | h
      · simp [extractTextContent, hok.2.2]
      · simp
      · simp at h
  | heading_3 rich =>
    match rich with
    | [] => simp [canonicalBlock] at hb
    | t :: t2 :: ts => simp [canonicalBlock] at hb
    | [t] =>
      have hok : pyStrip t = t ∧ t ≠ [] ∧ '\n' ∉ t := by
        simpa [canonicalBlock, lineOk] using hb
      intro l hl
      simp only [blockLines, serializeBlock, List.mem_cons, List.mem_singleton] at hl
      rcases hl with rfl | rfl | h
      · simp [extractTextContent, hok.2.2]
      · simp
      · simp at h
  | bulleted_list_item rich =>
    match rich with
    | [] => simp [canonicalBlock] at hb
    | t :: t2 :: ts => simp [canonicalBlock] at hb
    | [t] =>
      have hok : pyStrip t = t ∧ t ≠ [] ∧ '\n' ∉ t := by
        simpa [canonicalBlock, lineOk] using hb
      intro l hl
      simp only [blockLines, serializeBlock, List.mem_cons, List.mem_singleton] at hl
      rcases hl with rfl | h
      · simp [extractTextContent, hok.2.2]
      · simp at h
  | numbered_list_item rich =>
    match rich with
    | [] => simp [canonicalBlock] at hb
    | t :: t2 :: ts => simp [canonicalBlock] at hb
    | [t] =>
      have hok : pyStrip t = t ∧ t ≠ [] ∧ '\n' ∉ t := by
        simpa [canonicalBlock, lineOk] using hb
      intro l hl
      simp only [blockLines, serializeBlock, List.mem_cons, List.mem_singleton] at hl
      rcases hl with rfl | h
      · simp [extractTextContent, hok.2.2]
      · simp at h
  | paragraph rich =>
    match rich with
    | [] => simp [canonicalBlock] at hb
    | t :: t2 :: ts => simp [canonicalBlock] at hb
    | [t] =>
      have hok : (pyStrip t = t ∧ t ≠ [] ∧ '\n' ∉ t) ∧ plainLine t = true := by
        simpa [canonicalBlock, lineOk, Bool.and_eq_true] using hb
      intro l hl
      simp only [blockLines, serializeBlock, List.mem_cons, List.mem_singleton] at hl
      rcases hl with rfl | rfl | h
      · simpa [extractTextContent] using hok.1.2.2
      · simp
      · simp at h
  | code rich lang =>
    match rich with
    | [] => simp [canonicalBlock] at hb
    | t :: t2 :: ts => simp [canonicalBlock] at hb
    | [t] =>
      have hok : '\n' ∉ lang ∧ ∀ l ∈ splitNl t, codeLineOk l = true := by
        simpa [canonicalBlock, Bool.and_eq_true] using hb
      intro l hl
      simp only [blockLines, List.mem_cons, List.mem_append, List.mem_singleton] at hl
      rcases hl with rfl | hsp | rfl | rfl | h
      · simp [hok.1]
      · exact splitNl_no_nl _ l (by simpa [extractTextContent] using hsp)
      · simp
      · simp
      · simp at h

/-- Counterexample to claim C1 as stated: a document made of one paragraph
with a single empty text run (its title empty, hence newline-free) is in
the claimed subset, yet its serialization parses back to no blocks at
all. -/
theorem C1_counterexample :
    (parse_markdown_to_blocks
        (convert_blocks_to_markdown [Block.paragraph [[]]] (some []))).1 = [] ∧
    (parse_markdown_to_blocks
        (convert_blocks_to_markdown [Block.paragraph [[]]] (some []))).1.map typeText ≠
      [Block.paragraph [[]]].map typeText := by
  decide

/-- Claim C1 (amended): on the canonical subset cut down to blocks whose
single text run is trimmed, nonempty, newline-free, with paragraphs not
resembling any markdown marker line, code text lines not resembling fence
or title lines, and a trimmed newline-free title, serializing and parsing
reproduces the title and the blocks up to language normalization; in
particular the type tags and text contents round-trip exactly. -/
theorem C1_roundtrip (bs : List Block) (T : PyStr)
    (hT : canonicalTitle T = true)
    (hbs : ∀ b ∈ bs, canonicalBlock b = true) :
    parse_markdown_to_blocks (convert_blocks_to_markdown bs (some T)) =
      (bs.map reparse, T) ∧
    (parse_markdown_to_blocks (convert_blocks_to_markdown bs (some T))).1.map typeText =
      bs.map typeText := by
  have hTp : pyStrip T = T ∧ '\n' ∉ T := by
    simpa [canonicalTitle] using hT
  suffices hmain : parse_markdown_to_blocks (convert_blocks_to_markdown bs (some T)) =
      (bs.map reparse, T) by
    refine ⟨hmain, ?_⟩
    rw [hmain]
    show (bs.map reparse).map typeText = bs.map typeText
    have hco : typeText ∘ reparse = typeText := funext typeText_reparse
    rw [List.map_map, hco]
  by_cases hbs0 : bs = []
  · subst hbs0
    by_cases hT0 : T = []
    · subst hT0
      decide
    · have hTe : T.isEmpty = false := by
        cases T with
        | nil => exact absurd rfl hT0
        | cons c r => rfl
      have hTsolid := pyStrip_self_solid T hTp.1 hT0
      have hconv : convert_blocks_to_markdown [] (some T) =
          joinNl ([['#', ' '] ++ T] ++ List.replicate 1 []) := by
        show joinNl ((if T.isEmpty then [] else [['#', ' '] ++ T, []]) ++
          ([] : List Block).flatMap serializeBlock) = _
        rw [if_neg (by simp [hTe])]
        rfl
      rw [parse_markdown_to_blocks, hconv,
        pyStrip_joinNl_decomp [['#', ' '] ++ T] 1 (by simp)
          (by
            intro hd hhd
            simp only [List.head?_cons, Option.some.injEq] at hhd
            subst hhd
            rfl)
          (by
            intro lst hlst
            simp only [List.getLast?_singleton, Option.some.injEq] at hlst
            subst hlst
            rw [lineEndsSolid_append _ _ hT0]
            exact hTsolid.2),
        splitNl_joinNl _ (by simp)
          (by
            intro l hl
            simp only [List.mem_singleton] at hl
            subst hl
            simp [hTp.2]),
        parseLines, titleScan, if_pos (pyStartsWith_append ['#', ' '] T),
        show (['#', ' '] ++ T).drop 2 = T from rfl, hTp.1]
      rfl
  · obtain ⟨M, k, hdec, hMne, hparse, hhead, hlast⟩ :=
      flatMap_canonical_decomp bs hbs0 hbs
    have hmemM : ∀ l ∈ M, l ∈ bs.flatMap blockLines := by
      intro l hl
      rw [hdec]
      exact List.mem_append_left _ hl
    have hnlM : ∀ l ∈ M, '\n' ∉ l := by
      intro l hl
      obtain ⟨b, hbmem, hlb⟩ := List.mem_flatMap.mp (hmemM l hl)
      exact blockLines_no_nl b (hbs b hbmem) l hlb
    have hntM : ∀ l ∈ M, pyStartsWith ['#', ' '] l = false := by
      intro l hl
      obtain ⟨b, hbmem, hlb⟩ := List.mem_flatMap.mp (hmemM l hl)
      exact blockLines_no_title b (hbs b hbmem) l hlb
    by_cases hT0 : T = []
    · subst hT0
      have hconv : convert_blocks_to_markdown bs (some []) =
          joinNl (M ++ List.replicate k []) := by
        have h0 : convert_blocks_to_markdown bs (some []) =
            joinNl (([] : List PyStr) ++ bs.flatMap serializeBlock) := rfl
        rw [h0, joinNl_flatMap_blockLines [] bs, List.nil_append, hdec]
      rw [parse_markdown_to_blocks, hconv,
        pyStrip_joinNl_decomp M k hMne hhead hlast,
        splitNl_joinNl M hMne hnlM,
        parseLines, titleScan_none M hntM]
      show (parseBody M, ([] : PyStr)) = (bs.map reparse, [])
      rw [hparse]
    · have hTe : T.isEmpty = false := by
        cases T with
        | nil => exact absurd rfl hT0
        | cons c r => rfl
      have hconv : convert_blocks_to_markdown bs (some T) =
          joinNl (((['#', ' '] ++ T) :: ([] : PyStr) :: M) ++ List.replicate k []) := by
        show joinNl ((if T.isEmpty then [] else [['#', ' '] ++ T, []]) ++
          bs.flatMap serializeBlock) = _
        rw [if_neg (by simp [hTe]),
          joinNl_flatMap_blockLines [['#', ' '] ++ T, []] bs, hdec]
        simp
      have hM' : ((['#', ' '] ++ T) :: ([] : PyStr) :: M).getLast? = M.getLast? := by
        cases M with
        | nil => exact absurd rfl hMne
        | cons m ms => rw [List.getLast?_cons_cons, List.getLast?_cons_cons]
      rw [parse_markdown_to_blocks, hconv,
        pyStrip_joinNl_decomp ((['#', ' '] ++ T) :: ([] : PyStr) :: M) k (by simp)
          (by
            intro hd hhd
            simp only [List.head?_cons, Option.some.injEq] at hhd
            subst hhd
            rfl)
          (by
            intro lst hlst
            rw [hM'] at hlst
            exact hlast lst hlst),
        splitNl_joinNl _ (by simp)
          (by
            intro l hl
            rcases List.mem_cons.mp hl with rfl | hl2
            · simp [hTp.2]
            · rcases List.mem_cons.mp hl2 with rfl | hl3
              · simp
              · exact hnlM l hl3),
        parseLines, titleScan, if_pos (pyStartsWith_append ['#', ' '] T),
        show (['#', ' '] ++ T).drop 2 = T from rfl, hTp.1]
      show (parseBody ([] :: M), T) = (bs.map reparse, T)
      rw [parseBody_nil_cons, hparse]

/-- Witness for C1_roundtrip, at a concrete canonical document exercising
every parser variant, including code-language normalization. -/
theorem C1_roundtrip_witness :
    parse_markdown_to_blocks (convert_blocks_to_markdown
        [Block.heading_2 ["A".toList], Block.heading_3 ["B".toList],
          Block.bulleted_list_item ["b".toList], Block.numbered_list_item ["c".toList],
          Block.code ["x\ny".toList] "js".toList, Block.code ["q".toList] [],
          Block.paragraph ["hello world".toList]] (some "Doc".toList)) =
      ([Block.heading_2 ["A".toList], Block.heading_3 ["B".toList],
          Block.bulleted_list_item ["b".toList], Block.numbered_list_item ["c".toList],
          Block.code ["x\ny".toList] "js".toList, Block.code ["q".toList] [],
          Block.paragraph ["hello world".toList]].map reparse, "Doc".toList) ∧
    (parse_markdown_to_blocks (convert_blocks_to_markdown
        [Block.heading_2 ["A".toList], Block.heading_3 ["B".toList],
          Block.bulleted_list_item ["b".toList], Block.numbered_list_item ["c".toList],
          Block.code ["x\ny".toList] "js".toList, Block.code ["q".toList] [],
          Block.paragraph ["hello world".toList]]
        (some "Doc".toList))).1.map typeText =
      [Block.heading_2 ["A".toList], Block.heading_3 ["B".toList],
        Block.bulleted_list_item ["b".toList], Block.numbered_list_item ["c".toList],
        Block.code ["x\ny".toList] "js".toList, Block.code ["q".toList] [],
        Block.paragraph ["hello world".toList]].map typeText :=
  C1_roundtrip
    [Block.heading_2 ["A".toList], Block.heading_3 ["B".toList],
      Block.bulleted_list_item ["b".toList], Block.numbered_list_item ["c".toList],
      Block.code ["x\ny".toList] "js".toList, Block.code ["q".toList] [],
      Block.paragraph ["hello world".toList]] "Doc".toList (by decide) (by decide)
